import Mathlib

/-!
# Verification of the json2obj path engine

A shallow embedding, in Lean 4, of the `json2obj` Python package
(`src/json2obj/core.py` and `src/json2obj/helpers.py`), together with
theorems settling the specification claims about it.

The embedding has two layers:

* a *functional model* of the JSON tree and the path operations
  (`parse_path_tokens`, `ensure_next`, `assign_at`, `get_token_value`,
  `delete_on_parent`, `set_path`, `del_path`, `get_path`, `__setattr__`,
  `__setitem__`, `merge`, `_on_missing_attr`).  Python mutates containers
  in place through shared references rooted at the mapper's single tree;
  since every operation starts from the root, in-place mutation is
  modelled by threading the updated tree through the traversal and
  writing the updated sub-container back into the slot it was read from.
* a *heap model* (addresses into a cell store) used for the aliasing
  claims about `wrap_value`/`_wrap`, where "the same container, not a
  copy" is a statement about object identity that the functional model
  cannot express.

Conventions:
* JSON numbers are modelled as integers (no claim involves float
  behaviour).
* Python attribute lookup on a mapper first finds class attributes
  (methods, slots, standard object attributes); only when that fails is
  `__getattr__` consulted.  The model reflects this: such names resolve
  to an opaque `methodV`/`pymethod` value.  Attribute chains *onto* such
  opaque objects (e.g. `get.__func__`) are modelled as failing.
* Builtin method names of `str`/`int`/`bool`/`list` are likewise
  modelled: `getattr("ab", "upper")` succeeds in Python and returns a
  bound method, it does not raise.  The model enumerates the non-dunder
  method names of these types; dunder attributes (which also succeed,
  with per-type sets) all begin with an underscore, and every theorem
  stated over `getattr` behaviour on builtins restricts its domain to
  names that do not begin with an underscore.
-/

namespace Json2Obj

/-- The JSON value model: scalars (null, bool, number, string), arrays
(Python `list`) and objects (Python `dict`, modelled as an association
list with unique keys, preserving insertion order like Python dicts). -/
inductive JValue where
  | null : JValue
  | bool (b : Bool) : JValue
  | num (n : Int) : JValue
  | str (s : String) : JValue
  | arr (items : List JValue) : JValue
  | obj (fields : List (String × JValue)) : JValue
deriving Repr

/-- A scalar is anything that is not a dict or a list. -/
def JValue.isScalar : JValue → Bool
  | .arr _ => false
  | .obj _ => false
  | _ => true

/-- Python `d[name]` on a dict: first (unique) matching key. -/
def lookupF : List (String × JValue) → String → Option JValue
  | [], _ => none
  | (k, v) :: rest, n => if k = n then some v else lookupF rest n

/-- Python `d[name] = value` on a dict: overwrite in place if the key is
present (keeping its position), append otherwise. -/
def setF : List (String × JValue) → String → JValue → List (String × JValue)
  | [], n, v => [(n, v)]
  | (k, w) :: rest, n, v =>
    if k = n then (n, v) :: rest else (k, w) :: setF rest n v

/-- Python `del d[name]` on a dict: remove the (unique) entry. -/
def delF : List (String × JValue) → String → List (String × JValue)
  | [], _ => []
  | (k, w) :: rest, n => if k = n then rest else (k, w) :: delF rest n

/-- Membership test `name in d`. -/
def memF (fs : List (String × JValue)) (n : String) : Bool :=
  (lookupF fs n).isSome

-- ---------------------------------------------------------------------------
-- Path tokenizer (helpers.py: PATH_TOKEN, parse_path_tokens)
-- ---------------------------------------------------------------------------

/-- One parsed path segment: a regex match of either the `name` group
(`[A-Za-z_][A-Za-z0-9_]*`) or the `index` group (`\[(\d+)\]`). -/
inductive Token where
  | name (s : String) : Token
  | index (i : Nat) : Token
deriving DecidableEq, Repr

/-- First character class of the identifier pattern, `[A-Za-z_]`. -/
def isIdentStart (c : Char) : Bool := c.isAlpha || c = '_'

/-- Continuation character class of the identifier pattern, `[A-Za-z0-9_]`. -/
def isIdentCont (c : Char) : Bool := isIdentStart c || c.isDigit

/-- helpers.py `is_identifier`: full match of `^[A-Za-z_][A-Za-z0-9_]*$`. -/
def is_identifier (s : String) : Bool :=
  match s.data with
  | [] => false
  | c :: rest => isIdentStart c && rest.all isIdentCont

/-- Decimal digits to a natural number (the `int(...)` applied to the
digits captured by the `index` group). -/
def digitsToNat (ds : List Char) : Nat :=
  ds.foldl (fun acc c => 10 * acc + (c.toNat - 48)) 0

/-- Model of `re.finditer(PATH_TOKEN, s)`: scan left to right; at each position
try the identifier alternative (greedy), then the `\[\d+\]` alternative;
if neither matches, skip one character.  Since `\d` never matches `]`,
the greedy digit scan followed by a `]` check is exact.  The scanner is
written with a fuel argument so that it is structurally recursive (and
hence kernel-computable); every recursive call consumes at least one
character, so with fuel exceeding the input length the fuel-exhausted
branch is never reached. -/
def tokenizeFuel : Nat → List Char → List Token
  | 0, _ => []
  | _ + 1, [] => []
  | fuel + 1, c :: rest =>
    if isIdentStart c then
      Token.name (String.mk (c :: rest.takeWhile isIdentCont)) ::
        tokenizeFuel fuel (rest.dropWhile isIdentCont)
    else if c = '[' then
      match rest.takeWhile Char.isDigit, rest.dropWhile Char.isDigit with
      | [], _ => tokenizeFuel fuel rest
      | ds, ']' :: rest2 => Token.index (digitsToNat ds) :: tokenizeFuel fuel rest2
      | _, _ => tokenizeFuel fuel rest
    else
      tokenizeFuel fuel rest

/-- helpers.py `parse_path_tokens`: replace `.` by a space (a single-char
replace is a character-wise map), then scan for token matches.  (`.` and
space both match neither alternative, so both are skipped.) -/
def parse_path_tokens (path : String) : List Token :=
  let cs := path.data.map (fun c => if c = '.' then ' ' else c)
  tokenizeFuel (cs.length + 1) cs

-- ---------------------------------------------------------------------------
-- Error taxonomy (Python exception classes, by what raises them)
-- ---------------------------------------------------------------------------

/-- The kinds of error the engine raises:
* `accessDenied`: `AttributeError("Mapper is read-only")`
* `notFound`: `KeyError` for a missing key, `JSONAccessError(... not found)`
* `typeMismatch`: `TypeError` from `expect_dict`/`expect_list`, attribute
  access on a list, or `merge()` on a non-dict root
* `outOfRange`: `IndexError`
* `invalidPath`: `ValueError("Empty path")`
* `invalidName`: `JSONAccessError`/`AttributeError` for a non-identifier
  attribute name -/
inductive Err where
  | accessDenied : Err
  | notFound : Err
  | typeMismatch : Err
  | outOfRange : Err
  | invalidPath : Err
  | invalidName : Err
deriving DecidableEq, Repr

-- ---------------------------------------------------------------------------
-- Traversal helpers (helpers.py)
-- ---------------------------------------------------------------------------

/-- helpers.py `ensure_list_length`: extend the list with `None`
placeholders so that `index` is in range. -/
def ensure_list_length (xs : List JValue) (i : Nat) : List JValue :=
  if i ≥ xs.length then xs ++ List.replicate (i + 1 - xs.length) .null else xs

/-- helpers.py `peek_is_index` applied to the remaining tokens: is the
token after the current one an `index` match? -/
def peekIsIndex : List Token → Bool
  | .index _ :: _ => true
  | _ => false

/-- The fresh intermediate container created by `ensure_next`:
`[] if next_is_index else {}`. -/
def freshContainer (nextIsIdx : Bool) : JValue :=
  if nextIsIdx then .arr [] else .obj []

/-- helpers.py `assign_at`: write `v` at the final segment of the parent
container.  For a dict: `container[name] = value`.  For a list: raise
`IndexError` when out of range and `create_parents` is false, else pad
with `None` and assign. -/
def assign_at (cur : JValue) (t : Token) (v : JValue) (cp : Bool) :
    Except Err JValue :=
  match t, cur with
  | .name n, .obj fs => .ok (.obj (setF fs n v))
  | .name _, _ => .error .typeMismatch
  | .index i, .arr xs =>
    if i ≥ xs.length && !cp then .error .outOfRange
    else .ok (.arr ((ensure_list_length xs i).set i v))
  | .index _, _ => .error .typeMismatch

/-- helpers.py `ensure_next`: resolve one non-final segment, creating a
missing intermediate container when `create_parents` is true.  Returns
the sub-container together with the (possibly updated) parent.  Note
that for a dict the code uses `container.get(name)` and tests the result
against `None`, so a stored JSON `null` is treated exactly like a
missing key; for a list an in-range element is returned as is. -/
def ensure_next (cur : JValue) (t : Token) (nextIsIdx : Bool) (cp : Bool) :
    Except Err (JValue × JValue) :=
  match t, cur with
  | .name n, .obj fs =>
    match lookupF fs n with
    | some .null =>
      if cp then
        let c := freshContainer nextIsIdx
        .ok (c, .obj (setF fs n c))
      else .error .notFound
    | some v => .ok (v, .obj fs)
    | none =>
      if cp then
        let c := freshContainer nextIsIdx
        .ok (c, .obj (setF fs n c))
      else .error .notFound
  | .name _, _ => .error .typeMismatch
  | .index i, .arr xs =>
    if h : i < xs.length then .ok (xs[i], .arr xs)
    else if cp then
      let c := freshContainer nextIsIdx
      .ok (c, .arr ((ensure_list_length xs i).set i c))
    else .error .outOfRange
  | .index _, _ => .error .typeMismatch

/-- helpers.py `get_token_value`: strict resolution of one segment
(`expect_dict`/`expect_list`, then plain indexing). -/
def get_token_value (cur : JValue) (t : Token) : Except Err JValue :=
  match t, cur with
  | .name n, .obj fs =>
    match lookupF fs n with
    | some v => .ok v
    | none => .error .notFound
  | .name _, _ => .error .typeMismatch
  | .index i, .arr xs =>
    if h : i < xs.length then .ok xs[i] else .error .outOfRange
  | .index _, _ => .error .typeMismatch

/-- helpers.py `delete_on_parent`: delete the final segment on the
resolved parent.  `expect_dict`/`expect_list` raise regardless of
`strict`; a missing key / out-of-range index raises only when `strict`. -/
def delete_on_parent (parent : JValue) (t : Token) (strict : Bool) :
    Except Err JValue :=
  match t, parent with
  | .name n, .obj fs =>
    if memF fs n then .ok (.obj (delF fs n))
    else if strict then .error .notFound else .ok (.obj fs)
  | .name _, _ => .error .typeMismatch
  | .index i, .arr xs =>
    if i < xs.length then .ok (.arr (xs.eraseIdx i))
    else if strict then .error .outOfRange else .ok (.arr xs)
  | .index _, _ => .error .typeMismatch

/-- Write an updated sub-container back into the slot of the parent it
was read from.  In Python this is implicit: the sub-container is mutated
in place through the shared reference held by the parent's slot. -/
def writeBack (cur : JValue) (t : Token) (sub : JValue) : JValue :=
  match t, cur with
  | .name n, .obj fs => .obj (setF fs n sub)
  | .index i, .arr xs => .arr (xs.set i sub)
  | _, _ => cur

-- ---------------------------------------------------------------------------
-- set_path / del_path (core.py)
-- ---------------------------------------------------------------------------

/-- The token loop of `set_path`: `ensure_next` on every segment except
the last, `assign_at` on the last.  Returns the outcome together with
the (possibly partially mutated) tree: intermediate containers created
before a failure are not rolled back. -/
def setGo (v : JValue) (cp : Bool) : JValue → List Token → Except Err Unit × JValue
  | cur, [] => (.ok (), cur)
  | cur, [t] =>
    match assign_at cur t v cp with
    | .ok cur2 => (.ok (), cur2)
    | .error e => (.error e, cur)
  | cur, t :: rest =>
    match ensure_next cur t (peekIsIndex rest) cp with
    | .error e => (.error e, cur)
    | .ok (sub, curA) =>
      let res := setGo v cp sub rest
      (res.1, writeBack curA t res.2)

/-- core.py `set_path`: read-only check, tokenize, empty-path check,
then the token loop. -/
def set_path (ro : Bool) (tree : JValue) (path : String) (v : JValue)
    (cp : Bool) : Except Err Unit × JValue :=
  if ro then (.error .accessDenied, tree)
  else
    let ts := parse_path_tokens path
    if ts.isEmpty then (.error .invalidPath, tree)
    else setGo v cp tree ts

/-- The traversal of `del_path`: helpers.py `traverse_parent` walks all
segments but the last with `get_token_value`, converting *any* failure
into `KeyError` when `strict` and into a silent no-op otherwise;
`delete_on_parent` then handles the final segment. -/
def delGo (strict : Bool) : JValue → List Token → Except Err Unit × JValue
  | cur, [] => (.ok (), cur)
  | cur, [t] =>
    match delete_on_parent cur t strict with
    | .ok cur2 => (.ok (), cur2)
    | .error e => (.error e, cur)
  | cur, t :: rest =>
    match get_token_value cur t with
    | .error _ => if strict then (.error .notFound, cur) else (.ok (), cur)
    | .ok sub =>
      let res := delGo strict sub rest
      (res.1, writeBack cur t res.2)

/-- core.py `del_path`: read-only check, tokenize, empty-path check,
then traverse and delete. -/
def del_path (ro : Bool) (tree : JValue) (path : String) (strict : Bool) :
    Except Err Unit × JValue :=
  if ro then (.error .accessDenied, tree)
  else
    let ts := parse_path_tokens path
    if ts.isEmpty then (.error .invalidPath, tree)
    else delGo strict tree ts

-- ---------------------------------------------------------------------------
-- Direct attribute / item mutation and merge (core.py)
-- ---------------------------------------------------------------------------

/-- The four name-mangled `__slots__` member names of the mapper class.
`__setattr__` forwards exactly these to `object.__setattr__`, before any
read-only check. -/
def slotAttrNames : List String :=
  ["_JSONObjectMapper__json", "_JSONObjectMapper__readonly",
   "_JSONObjectMapper__default_factory", "_JSONObjectMapper__autocreate_missing"]

/-- core.py `__setattr__`: slot names are assigned directly (assigning
the `__json` slot replaces the backing tree, the other slots change
policy flags but not the tree); otherwise read-only check, list check,
identifier check, then `self.__json[attribute_name] = value`. -/
def setattr_m (ro : Bool) (tree : JValue) (n : String) (v : JValue) :
    Except Err Unit × JValue :=
  if slotAttrNames.contains n then
    if n = "_JSONObjectMapper__json" then (.ok (), v) else (.ok (), tree)
  else if ro then (.error .accessDenied, tree)
  else
    match tree with
    | .arr _ => (.error .typeMismatch, tree)
    | .obj fs =>
      if is_identifier n then (.ok (), .obj (setF fs n v))
      else (.error .invalidName, tree)
    | _ => (.error .typeMismatch, tree)

/-- core.py `__setitem__`: read-only check, then `self.__json[key] = value`.
(An integer key on a dict root would store a non-string key, which is
outside the JSON value model; no claim exercises that branch.) -/
def setitem_m (ro : Bool) (tree : JValue) (k : Token) (v : JValue) :
    Except Err Unit × JValue :=
  if ro then (.error .accessDenied, tree)
  else
    match k, tree with
    | .name n, .obj fs => (.ok (), .obj (setF fs n v))
    | .index i, .arr xs =>
      if i < xs.length then (.ok (), .arr (xs.set i v))
      else (.error .outOfRange, tree)
    | _, _ => (.error .typeMismatch, tree)

/-- core.py `merge`: read-only check, dict-root check, then assign every
pair of `other` into the root. -/
def merge_m (ro : Bool) (tree : JValue) (other : List (String × JValue)) :
    Except Err Unit × JValue :=
  if ro then (.error .accessDenied, tree)
  else
    match tree with
    | .obj fs =>
      (.ok (), .obj (other.foldl (fun acc kv => setF acc kv.1 kv.2) fs))
    | _ => (.error .typeMismatch, tree)

-- ---------------------------------------------------------------------------
-- Attribute access and get_path (core.py __getattr__, _wrap, get_path;
-- helpers.py wrap_value)
-- ---------------------------------------------------------------------------

/-- The policy attached to a mapper at construction: `readonly`,
`default_factory` (modelled by the value the zero-argument callable
produces), `autocreate_missing`. -/
structure Policy where
  readonly : Bool
  factory : Option JValue
  autocreate : Bool

/-- Attribute names found on the `JSONObjectMapper` class (its methods
and classmethods, the name-mangled slot member descriptors, and the
standard attributes inherited from `object`).  Python's attribute
protocol finds these *before* `__getattr__` is consulted, so a data key
with one of these names is shadowed by the class attribute. -/
def mapperAttrNames : List String :=
  ["to_dict", "to_json", "from_json", "readonly", "get", "keys", "items",
   "values", "get_path", "set_path", "del_path", "merge",
   "_on_missing_attr", "_wrap",
   "_JSONObjectMapper__json", "_JSONObjectMapper__readonly",
   "_JSONObjectMapper__default_factory", "_JSONObjectMapper__autocreate_missing",
   "__slots__", "__init__", "__repr__", "__getattr__", "__setattr__",
   "__getitem__", "__setitem__", "__iter__", "__len__", "__module__",
   "__qualname__", "__doc__", "__class__", "__delattr__", "__dir__",
   "__eq__", "__format__", "__ge__", "__getattribute__", "__gt__", "__hash__",
   "__init_subclass__", "__le__", "__lt__", "__ne__", "__new__", "__reduce__",
   "__reduce_ex__", "__sizeof__", "__str__", "__subclasshook__"]

/-- Is the attribute name shadowed by a mapper class attribute? -/
def mapperShadow (n : String) : Bool := mapperAttrNames.contains n

/-- The non-dunder builtin method names of Python `list` objects:
`getattr(xs, n)` on a plain list succeeds for these (returning a bound
method) instead of raising.  Dunder attributes (`__add__`,
`__contains__`, ...), which `getattr` also finds, all begin with an
underscore; the model does not enumerate them, and every theorem stated
over `getattr` behaviour on builtins therefore restricts its domain to
names that do not begin with an underscore (see `plainName`). -/
def listMethodNames : List String :=
  ["append", "clear", "copy", "count", "extend", "index", "insert", "pop",
   "remove", "reverse", "sort"]

/-- The non-dunder builtin method names of Python `str` objects (union
over CPython 3.x; over-inclusion only shrinks theorem domains).  Dunder
attributes are handled as for `listMethodNames`. -/
def strMethodNames : List String :=
  ["capitalize", "casefold", "center", "count", "encode", "endswith",
   "expandtabs", "find", "format", "format_map", "index", "isalnum",
   "isalpha", "isascii", "isdecimal", "isdigit", "isidentifier", "islower",
   "isnumeric", "isprintable", "isspace", "istitle", "isupper", "join",
   "ljust", "lower", "lstrip", "maketrans", "partition", "removeprefix",
   "removesuffix", "replace", "rfind", "rindex", "rjust", "rpartition",
   "rsplit", "rstrip", "split", "splitlines", "startswith", "strip",
   "swapcase", "title", "translate", "upper", "zfill"]

/-- The non-dunder builtin method names of Python `int` objects, union
over CPython 3.x (`bool` is a subclass of `int` and carries the same
ones; `is_integer` appears in 3.12).  Dunder attributes are handled as
for `listMethodNames`. -/
def intMethodNames : List String :=
  ["as_integer_ratio", "bit_count", "bit_length", "conjugate", "denominator",
   "from_bytes", "imag", "is_integer", "numerator", "real", "to_bytes"]

/-- Does `getattr(scalar, n)` succeed on this scalar (returning a bound
method / attribute object rather than raising `AttributeError`)?
Modelled for the non-dunder attribute surface; a name beginning with an
underscore reaches CPython dunder internals, whose per-type success is
not modelled — theorems over `getattr` behaviour exclude such names from
their domain (`plainName`). -/
def scalarHasMethod : JValue → String → Bool
  | .str _, n => strMethodNames.contains n
  | .num _, n => intMethodNames.contains n
  | .bool _, n => intMethodNames.contains n
  | _, _ => false

/-- The Python values that flow through `get_path`'s hop loop:
* `raw v` — a scalar passed through unwrapped (or, at the very start,
  never: the loop starts at the mapper itself);
* `mapperV d` — a `JSONObjectMapper` aliasing the container `d`
  (the root mapper, or a dict wrapped by `wrap_value` with `_no_copy`);
* `wlist items` — the plain Python list built by `wrap_value` for an
  array value: a fresh list whose elements are recursively wrapped;
* `methodV n` — an opaque class/builtin attribute object (bound method,
  slot content, dunder) found by Python's attribute protocol before
  `__getattr__`; attribute chains onto such objects are modelled as
  failing. -/
inductive GVal where
  | raw (v : JValue) : GVal
  | mapperV (data : JValue) : GVal
  | wlist (items : List GVal) : GVal
  | methodV (nm : String) : GVal

mutual
/-- helpers.py `wrap_value` (with core.py `_wrap` supplying the policy):
dict → aliasing mapper, list → fresh list of recursively wrapped items,
scalar → itself. -/
def wrapG : JValue → GVal
  | .obj fs => .mapperV (.obj fs)
  | .arr xs => .wlist (wrapL xs)
  | v => .raw v

/-- The list comprehension inside `wrap_value`. -/
def wrapL : List JValue → List GVal
  | [] => []
  | x :: xs => wrapG x :: wrapL xs
end

mutual
/-- The underlying data of a wrapped value (undoes `wrapG`; used to
write a possibly mutated sub-container back into its parent slot).
`methodV` never holds tree data and is never written back. -/
def unwrapG : GVal → JValue
  | .raw v => v
  | .mapperV d => d
  | .wlist items => .arr (unwrapL items)
  | .methodV _ => .null

def unwrapL : List GVal → List JValue
  | [] => []
  | g :: gs => unwrapG g :: unwrapL gs
end

/-- The hop loop of core.py `get_path`: for each token, either
`getattr(current, name)` or `current[int(index)]`, any raised error
aborting the whole read (`none`).  Python's `getattr` on a mapper first
finds class attributes; only then does `__getattr__` run (list check,
identifier check, key lookup, `_on_missing_attr`).  On a plain wrapped
list, `getattr` only finds list methods, and indexing returns the
already-wrapped element; on a scalar, `getattr` finds builtin methods
and string indexing `s[i]` succeeds for `i < len(s)`.  Side effects of
the autocreate policy (storing a factory-produced value on a missing
key) are threaded through the returned `GVal`. -/
def goGet (pol : Policy) : GVal → List Token → Option GVal × GVal
  | g, [] => (some g, g)
  | .mapperV d, .name n :: ts =>
    if mapperShadow n then
      ((goGet pol (.methodV n) ts).1, .mapperV d)
    else
      match d with
      | .obj fs =>
        if !(is_identifier n) then (none, .mapperV d)
        else
          match lookupF fs n with
          | some v =>
            let res := goGet pol (wrapG v) ts
            (res.1, .mapperV (.obj (setF fs n (unwrapG res.2))))
          | none =>
            match pol.factory with
            | none => (none, .mapperV (.obj fs))
            | some prod =>
              if pol.autocreate && !pol.readonly then
                let res := goGet pol (wrapG prod) ts
                (res.1, .mapperV (.obj (setF fs n (unwrapG res.2))))
              else
                ((goGet pol (wrapG prod) ts).1, .mapperV (.obj fs))
      | _ => (none, .mapperV d)
  | .mapperV d, .index i :: ts =>
    match d with
    | .arr xs =>
      match xs[i]? with
      | some v =>
        let res := goGet pol (wrapG v) ts
        (res.1, .mapperV (.arr (xs.set i (unwrapG res.2))))
      | none => (none, .mapperV d)
    | _ => (none, .mapperV d)
  | .wlist items, .name n :: ts =>
    if listMethodNames.contains n then
      ((goGet pol (.methodV n) ts).1, .wlist items)
    else (none, .wlist items)
  | .wlist items, .index i :: ts =>
    match items[i]? with
    | some g =>
      let res := goGet pol g ts
      (res.1, .wlist (items.set i res.2))
    | none => (none, .wlist items)
  | .raw (.str s), .index i :: ts =>
    match s.data[i]? with
    | some c => ((goGet pol (.raw (.str (String.mk [c]))) ts).1, .raw (.str s))
    | none => (none, .raw (.str s))
  | .raw v, .name n :: ts =>
    if scalarHasMethod v n then
      ((goGet pol (.methodV n) ts).1, .raw v)
    else (none, .raw v)
  | .raw v, .index _ :: _ => (none, .raw v)
  | .methodV n, _ :: _ => (none, .methodV n)

/-- core.py `get_path`: start at the mapper itself, run the hop loop,
and return the caller-supplied default if any hop raised.  The second
component is the backing tree afterwards (it can change only through
the autocreate policy). -/
def get_path (pol : Policy) (tree : JValue) (path : String) (dflt : GVal) :
    GVal × JValue :=
  let res := goGet pol (.mapperV tree) (parse_path_tokens path)
  (res.1.getD dflt, unwrapG res.2)

/-- One attribute read on a mapper (core.py `__getattr__` together with
`_on_missing_attr` and the preceding class-attribute resolution of
Python's attribute protocol).  Returns the wrapped result and the
backing tree afterwards. -/
def getattrStep (pol : Policy) (tree : JValue) (n : String) :
    Except Err (GVal × JValue) :=
  if mapperShadow n then .ok (.methodV n, tree)
  else
    match tree with
    | .obj fs =>
      if !(is_identifier n) then .error .invalidName
      else
        match lookupF fs n with
        | some v => .ok (wrapG v, .obj fs)
        | none =>
          match pol.factory with
          | none => .error .notFound
          | some prod =>
            if pol.autocreate && !pol.readonly then
              .ok (wrapG prod, .obj (setF fs n prod))
            else .ok (wrapG prod, .obj fs)
    | _ => .error .typeMismatch

-- ---------------------------------------------------------------------------
-- Pure reference walks (used to state the claims)
-- ---------------------------------------------------------------------------

/-- Pure raw-tree path resolution with the container-kind discipline of
the spec's data model: a `Field` segment against an Object, an `Index`
segment against an Array, nothing else. -/
def resolves : JValue → List Token → Option JValue
  | v, [] => some v
  | .obj fs, .name n :: ts =>
    match lookupF fs n with
    | some v => resolves v ts
    | none => none
  | .arr xs, .index i :: ts =>
    match xs[i]? with
    | some v => resolves v ts
    | none => none
  | _, _ => none

/-- Pure raw-tree resolution as Python data actually behaves: like
`resolves`, but integer indexing into a string succeeds (`s[i]` is the
one-character string). -/
def pyResolve : JValue → List Token → Option JValue
  | v, [] => some v
  | .obj fs, .name n :: ts =>
    match lookupF fs n with
    | some v => pyResolve v ts
    | none => none
  | .arr xs, .index i :: ts =>
    match xs[i]? with
    | some v => pyResolve v ts
    | none => none
  | .str s, .index i :: ts =>
    match s.data[i]? with
    | some c => pyResolve (.str (String.mk [c])) ts
    | none => none
  | _, _ => none

/-- Does the name begin with an underscore?  (Every dunder attribute of
every builtin type, the mangled slots, and bound-method internals such
as `__func__` do.) -/
def startsUnderscore (s : String) : Bool :=
  match s.data with
  | [] => false
  | c :: _ => c = '_'

/-- A "plain" attribute name: one that Python attribute lookup can only
resolve through `__getattr__`'s key lookup, on every receiver a
`get_path` hop can produce.  It must not begin with an underscore (that
excludes every dunder attribute of every builtin type, the mangled
slots, and bound-method internals such as `__func__`), and must be
shadowed neither by a mapper class attribute nor by a non-dunder builtin
method of `list`, `str` or `int`/`bool`. -/
def plainName (n : String) : Bool :=
  !(startsUnderscore n || mapperShadow n || listMethodNames.contains n
    || strMethodNames.contains n || intMethodNames.contains n)

/-- Token-wise form of `plainName` (index tokens are always plain). -/
def tokenPlain : Token → Bool
  | .name n => plainName n
  | .index _ => true

/-- A name token not shadowed by a mapper class attribute. -/
def tokenNotShadowed : Token → Bool
  | .name n => !(mapperShadow n)
  | .index _ => true

/-- A token whose name (if any) is a valid identifier.  The tokenizer
only ever produces such tokens (its `name` group is the identifier
pattern). -/
def tokenIdentOk : Token → Bool
  | .name n => is_identifier n
  | .index _ => true

/-- Strict walk of a token sequence by `get_token_value` (the loop body
of helpers.py `traverse_parent`). -/
def walkTokens : JValue → List Token → Except Err JValue
  | cur, [] => .ok cur
  | cur, t :: rest =>
    match get_token_value cur t with
    | .ok sub => walkTokens sub rest
    | .error e => .error e

/-- Target-missing predicate for delete paths: the
strict walk to the parent fails, or the parent is a container of the
right kind for the final segment but the key is absent / the index is
out of range. -/
def delTargetMissing (root : JValue) (ts : List Token) : Bool :=
  match walkTokens root ts.dropLast with
  | .error _ => true
  | .ok parent =>
    match ts.getLast?, parent with
    | some (.name n), .obj fs => !(memF fs n)
    | some (.index i), .arr xs => decide (i ≥ xs.length)
    | _, _ => false

-- ---------------------------------------------------------------------------
-- Heap model (for the aliasing discipline of wrap_value / _wrap)
-- ---------------------------------------------------------------------------

/-- A stored Python value in the heap model: a scalar, or a reference to
a container object.  Object identity — which the functional model cannot
express — is an address into the heap. -/
inductive HVal where
  | hnull : HVal
  | hbool (b : Bool) : HVal
  | hnum (n : Int) : HVal
  | hstr (s : String) : HVal
  | ref (a : Nat) : HVal
deriving DecidableEq, Repr

/-- A container object: a dict cell or a list cell. -/
inductive Cell where
  | dcell (fields : List (String × HVal)) : Cell
  | lcell (items : List HVal) : Cell
deriving DecidableEq, Repr

/-- The store of container objects; an address is an index. -/
abbrev Heap := List Cell

/-- Dereference an address. -/
def getCell (h : Heap) (a : Nat) : Option Cell := h[a]?

/-- Mutate the container object at an address in place. -/
def setCell (h : Heap) (a : Nat) (c : Cell) : Heap := h.set a c

/-- Python `d[name]` on a heap dict cell. -/
def lookupFH : List (String × HVal) → String → Option HVal
  | [], _ => none
  | (k, v) :: rest, n => if k = n then some v else lookupFH rest n

/-- Python `d[name] = value` on a heap dict cell. -/
def setFH : List (String × HVal) → String → HVal → List (String × HVal)
  | [], n, v => [(n, v)]
  | (k, w) :: rest, n, v =>
    if k = n then (n, v) :: rest else (k, w) :: setFH rest n v

/-- The policy carried by a heap-model view (same fields as `Policy`,
with the factory product as a heap value). -/
structure HPolicy where
  readonly : Bool
  factory : Option HVal
  autocreate : Bool
deriving DecidableEq, Repr

/-- What a caller of the mapper holds in the heap model:
* `scalar v` — a pass-through scalar;
* `view addr pol` — a `JSONObjectMapper` built with `_no_copy=True`,
  aliasing the dict cell at `addr` and carrying the policy `pol`;
* `plist items` — the *fresh* Python list built by `wrap_value` for a
  list value (a new object, not an address into the tree's heap; its
  elements are recursively wrapped, so dict elements alias the heap);
* `pymethod n` — an opaque class-attribute object (shadowing). -/
inductive PyObj where
  | scalar (v : HVal) : PyObj
  | view (addr : Nat) (pol : HPolicy) : PyObj
  | plist (items : List PyObj) : PyObj
  | pymethod (nm : String) : PyObj
deriving Repr

/-- helpers.py `wrap_value` on the heap: scalars pass through, a dict
reference becomes a view on the *same address* with the same policy, a
list reference becomes a fresh `plist` of recursively wrapped items.
Fuel makes the recursion structural; every recursive call consumes one
unit, so any fuel exceeding the total heap size is enough. -/
def wrapHList (h : Heap) (pol : HPolicy) : Nat → List HVal → List PyObj
  | 0, _ => []
  | _ + 1, [] => []
  | fuel + 1, v :: vs =>
    (match v with
     | .hnull => PyObj.scalar .hnull
     | .hbool b => PyObj.scalar (.hbool b)
     | .hnum n => PyObj.scalar (.hnum n)
     | .hstr s => PyObj.scalar (.hstr s)
     | .ref a =>
       match getCell h a with
       | some (.dcell _) => PyObj.view a pol
       | some (.lcell items) => PyObj.plist (wrapHList h pol fuel items)
       | none => PyObj.scalar .hnull) :: wrapHList h pol fuel vs

/-- Wrap of a single heap value by `wrap_value`. -/
def wrapH (h : Heap) (pol : HPolicy) (fuel : Nat) (v : HVal) : PyObj :=
  (wrapHList h pol (fuel + 1) [v]).headD (.scalar .hnull)

/-- One attribute read of an *existing* key through a heap-model view
(core.py `__getattr__`, found-key branch; the missing-key/factory logic
is modelled by `getattrStep` in the functional model). -/
def viewGetAttr (h : Heap) (a : Nat) (pol : HPolicy) (fuel : Nat)
    (n : String) : Option PyObj :=
  if mapperShadow n then some (.pymethod n)
  else
    match getCell h a with
    | some (.dcell fs) =>
      if !(is_identifier n) then none
      else
        match lookupFH fs n with
        | some v => some (wrapH h pol fuel v)
        | none => none
    | _ => none

/-- One index read through a heap-model view whose data is a list
(core.py `__getitem__`): wrap the element. -/
def viewGetIdx (h : Heap) (a : Nat) (pol : HPolicy) (fuel : Nat)
    (i : Nat) : Option PyObj :=
  match getCell h a with
  | some (.lcell items) =>
    match items[i]? with
    | some v => some (wrapH h pol fuel v)
    | none => none
  | _ => none

/-- Attribute assignment through a heap-model view (core.py
`__setattr__`).  The four name-mangled slot names are forwarded to
`object.__setattr__` *before* any check: that rebinds the corresponding
slot of the view object itself (for `_JSONObjectMapper__json`, which
container the view points at) and reads or writes **no container cell**,
so the heap is returned unchanged — the rebinding of the view's own slot
is outside the heap of tree containers, and every theorem about
cell-level mutation excludes slot names from its domain.  Otherwise:
read-only check, list check, identifier check, then mutate the dict
cell in place. -/
def viewSetAttr (h : Heap) (a : Nat) (pol : HPolicy) (n : String)
    (v : HVal) : Except Err Heap :=
  if slotAttrNames.contains n then .ok h
  else if pol.readonly then .error .accessDenied
  else
    match getCell h a with
    | some (.dcell fs) =>
      if is_identifier n then .ok (setCell h a (.dcell (setFH fs n v)))
      else .error .invalidName
    | some (.lcell _) => .error .typeMismatch
    | none => .error .notFound

/-- Read one field of the dict cell at an address (raw, unwrapped). -/
def readFieldH (h : Heap) (a : Nat) (n : String) : Option HVal :=
  match getCell h a with
  | some (.dcell fs) => lookupFH fs n
  | _ => none

mutual
/-- The plain-value form of a heap value (core.py `to_dict`: a detached
deep copy).  Fuel-structural; `none` only on fuel exhaustion, dangling
addresses, or cyclic heaps. -/
def plainH (h : Heap) : Nat → HVal → Option JValue
  | 0, _ => none
  | _ + 1, .hnull => some .null
  | _ + 1, .hbool b => some (.bool b)
  | _ + 1, .hnum n => some (.num n)
  | _ + 1, .hstr s => some (.str s)
  | fuel + 1, .ref a =>
    match getCell h a with
    | some (.dcell fs) => (plainFieldsH h fuel fs).map JValue.obj
    | some (.lcell items) => (plainItemsH h fuel items).map JValue.arr
    | none => none

def plainFieldsH (h : Heap) :
    Nat → List (String × HVal) → Option (List (String × JValue))
  | 0, _ => none
  | _ + 1, [] => some []
  | fuel + 1, (k, v) :: rest =>
    match plainH h fuel v, plainFieldsH h fuel rest with
    | some j, some js => some ((k, j) :: js)
    | _, _ => none

def plainItemsH (h : Heap) : Nat → List HVal → Option (List JValue)
  | 0, _ => none
  | _ + 1, [] => some []
  | fuel + 1, v :: rest =>
    match plainH h fuel v, plainItemsH h fuel rest with
    | some j, some js => some (j :: js)
    | _, _ => none
end

-- ---------------------------------------------------------------------------
-- Tokenizer sanity checks
-- ---------------------------------------------------------------------------

example : parse_path_tokens "a.b[0].c" =
    [.name "a", .name "b", .index 0, .name "c"] := by rfl
example : parse_path_tokens "" = [] := by rfl
example : parse_path_tokens "..!!" = [] := by rfl
example : parse_path_tokens "[12x]y" = [.name "x", .name "y"] := by rfl
example : parse_path_tokens "xs[2]" = [.name "xs", .index 2] := by rfl
example : is_identifier "get" = true := by rfl
example : is_identifier "not-valid!" = false := by rfl

-- ---------------------------------------------------------------------------
-- Support lemmas
-- ---------------------------------------------------------------------------

theorem lookupF_setF_self (fs : List (String × JValue)) (n : String) (v : JValue) :
    lookupF (setF fs n v) n = some v := by
  induction fs with
  | nil => simp [setF, lookupF]
  | cons kv rest ih =>
    obtain ⟨k, w⟩ := kv
    by_cases h : k = n
    · simp [setF, h, lookupF]
    · simp [setF, h, lookupF, ih]

theorem setF_self (fs : List (String × JValue)) (n : String) (v : JValue)
    (h : lookupF fs n = some v) : setF fs n v = fs := by
  induction fs with
  | nil => simp [lookupF] at h
  | cons kv rest ih =>
    obtain ⟨k, w⟩ := kv
    by_cases hk : k = n
    · simp [lookupF, hk] at h
      simp [setF, hk, h]
    · simp [lookupF, hk] at h
      simp [setF, hk, ih h]

theorem list_set_self {α : Type _} (xs : List α) (i : Nat) (v : α)
    (h : xs[i]? = some v) : xs.set i v = xs := by
  induction xs generalizing i with
  | nil => simp at h
  | cons x rest ih =>
    cases i with
    | zero => simp at h; simp [List.set, h]
    | succ j => simp at h; simp [List.set, ih j h]

theorem set_append_right {α : Type _} (l1 l2 : List α) (i : Nat) (v : α)
    (h : l1.length ≤ i) :
    (l1 ++ l2).set i v = l1 ++ l2.set (i - l1.length) v := by
  induction l1 generalizing i with
  | nil => simp
  | cons x rest ih =>
    cases i with
    | zero => simp at h
    | succ j =>
      have h2 : rest.length ≤ j := by simpa using h
      show x :: (rest ++ l2).set j v
          = x :: (rest ++ l2.set (j + 1 - (x :: rest).length) v)
      have e : j + 1 - (x :: rest).length = j - rest.length := by
        simp only [List.length_cons]; omega
      rw [e, ih j h2]

theorem ensure_set (xs : List JValue) (i : Nat) (v : JValue)
    (h : i ≥ xs.length) :
    (ensure_list_length xs i).set i v
      = xs ++ List.replicate (i - xs.length) .null ++ [v] := by
  unfold ensure_list_length
  rw [if_pos h]
  have h1 : i + 1 - xs.length = (i - xs.length) + 1 := by omega
  rw [h1, List.replicate_succ']
  rw [show xs ++ (List.replicate (i - xs.length) JValue.null ++ [JValue.null])
        = (xs ++ List.replicate (i - xs.length) JValue.null) ++ [JValue.null] by
      simp]
  rw [set_append_right _ _ i v (by simp; omega)]
  have h2 : i - (xs ++ List.replicate (i - xs.length) JValue.null).length = 0 := by
    simp; omega
  rw [h2]
  simp [List.set]

theorem wrapL_getElem (xs : List JValue) (i : Nat) :
    (wrapL xs)[i]? = (xs[i]?).map wrapG := by
  induction xs generalizing i with
  | nil => simp [wrapL]
  | cons x rest ih =>
    cases i with
    | zero => simp [wrapL]
    | succ j => simp [wrapL, ih j]

theorem wrapG_scalar (v : JValue) (h : v.isScalar = true) : wrapG v = .raw v := by
  cases v <;> first | rfl | simp [JValue.isScalar] at h

theorem resolves_null_cons (t : Token) (ts : List Token) :
    resolves .null (t :: ts) = none := by
  cases t <;> rfl

mutual
theorem unwrap_wrap : ∀ v : JValue, unwrapG (wrapG v) = v
  | .null => rfl
  | .bool _ => rfl
  | .num _ => rfl
  | .str _ => rfl
  | .obj _ => rfl
  | .arr xs => by simp only [wrapG, unwrapG, unwrapL_wrapL]

theorem unwrapL_wrapL : ∀ xs : List JValue, unwrapL (wrapL xs) = xs
  | [] => rfl
  | x :: xs => by simp only [wrapL, unwrapL, unwrap_wrap x, unwrapL_wrapL xs]
end

-- ---------------------------------------------------------------------------
-- Claim C9: empty paths
-- ---------------------------------------------------------------------------

/-- Claim C9. For every path string that tokenizes to an empty segment
sequence, `set_path` and `del_path` raise the Empty-path error
(`ValueError("Empty path")`) and leave the tree unchanged, while
`get_path` does not treat it as an error (its hop loop runs zero times
and it returns the mapper itself). -/
theorem c9_empty_path (pol : Policy) (T : JValue) (p : String) (v : JValue)
    (cp strict : Bool) (dflt : GVal) (hp : parse_path_tokens p = []) :
    set_path false T p v cp = (.error .invalidPath, T) ∧
    del_path false T p strict = (.error .invalidPath, T) ∧
    get_path pol T p dflt = (.mapperV T, T) := by
  refine ⟨?_, ?_, ?_⟩ <;>
    simp [set_path, del_path, get_path, hp, goGet, unwrapG]

/-- Witness for C9 at the concrete empty path `""` on `{"x": 1}`. -/
theorem c9_witness :
    set_path false (.obj [("x", .num 1)]) "" (.num 2) true
      = (.error .invalidPath, .obj [("x", .num 1)]) ∧
    del_path false (.obj [("x", .num 1)]) "" false
      = (.error .invalidPath, .obj [("x", .num 1)]) ∧
    get_path ⟨false, none, false⟩ (.obj [("x", .num 1)]) "" (.raw .null)
      = (.mapperV (.obj [("x", .num 1)]), .obj [("x", .num 1)]) :=
  c9_empty_path ⟨false, none, false⟩ (.obj [("x", .num 1)]) "" (.num 2)
    true false (.raw .null) (by rfl)

-- ---------------------------------------------------------------------------
-- Claim C3: read-only views
-- ---------------------------------------------------------------------------

/-- Claim C3, amended. On a read-only view, every mutation operation —
attribute set *of a name other than the mapper's four name-mangled slot
attributes*, item set, `set_path`, `del_path`, `merge` — raises the
read-only error (`AttributeError("Mapper is read-only")`) before any
mutation occurs, leaving the tree unchanged.  (Assigning one of the slot
attribute names bypasses the check: see the counterexample.) -/
theorem c3_readonly_amended (T : JValue) (p n : String) (k : Token)
    (v : JValue) (cp strict : Bool) (other : List (String × JValue))
    (hn : slotAttrNames.contains n = false) :
    setattr_m true T n v = (.error .accessDenied, T) ∧
    setitem_m true T k v = (.error .accessDenied, T) ∧
    set_path true T p v cp = (.error .accessDenied, T) ∧
    del_path true T p strict = (.error .accessDenied, T) ∧
    merge_m true T other = (.error .accessDenied, T) := by
  have hn2 : ¬ (n ∈ slotAttrNames) := by simpa using hn
  refine ⟨?_, ?_, ?_, ?_, ?_⟩ <;>
    simp [setattr_m, setitem_m, set_path, del_path, merge_m, hn2]

/-- Claim C3 counterexample. The claim quantifies over *every* attribute
set: but `__setattr__` forwards the four name-mangled slot names to
`object.__setattr__` before the read-only check, so assigning
`_JSONObjectMapper__json` on a read-only mapper raises nothing and
replaces the whole backing tree. -/
theorem c3_counterexample :
    setattr_m true (.obj []) "_JSONObjectMapper__json" (.obj [("a", .num 1)])
      = (.ok (), .obj [("a", .num 1)]) ∧
    (JValue.obj [("a", .num 1)]) ≠ .obj [] := by
  refine ⟨by rfl, ?_⟩
  simp

/-- Witness for the amended C3 at concrete arguments. -/
theorem c3_witness :
    setattr_m true (.obj [("x", .num 1)]) "a" (.num 2)
      = (.error .accessDenied, .obj [("x", .num 1)]) ∧
    setitem_m true (.obj [("x", .num 1)]) (.name "y") (.num 2)
      = (.error .accessDenied, .obj [("x", .num 1)]) ∧
    set_path true (.obj [("x", .num 1)]) "a.b" (.num 2) true
      = (.error .accessDenied, .obj [("x", .num 1)]) ∧
    del_path true (.obj [("x", .num 1)]) "a.b" false
      = (.error .accessDenied, .obj [("x", .num 1)]) ∧
    merge_m true (.obj [("x", .num 1)]) [("z", .num 3)]
      = (.error .accessDenied, .obj [("x", .num 1)]) :=
  c3_readonly_amended (.obj [("x", .num 1)]) "a.b" "a" (.name "y")
    (.num 2) true false [("z", .num 3)] (by rfl)

-- ---------------------------------------------------------------------------
-- Claim C5: create_parents and the container-kind tie-break
-- ---------------------------------------------------------------------------

/-- Claim C5. `set_path("a.b.c", 1, create_parents=False)` on an empty root
raises the missing-key error and leaves the tree unchanged; with
`create_parents=True` it creates the missing intermediates and yields
`{a:{b:{c:1}}}`.  Generally, `ensure_next` on a missing key (or an
out-of-range index) creates `[]` exactly when the next segment is an
`Index` and `{}` in every other case, `peek_is_index` being the
one-segment lookahead. -/
theorem c5_create_parents (fs : List (String × JValue)) (n m : String)
    (nii : Bool) (xs : List JValue) (i j : Nat) (ts : List Token)
    (hmiss : lookupF fs n = none) (hrange : i ≥ xs.length) :
    set_path false (.obj []) "a.b.c" (.num 1) false
      = (.error .notFound, .obj []) ∧
    set_path false (.obj []) "a.b.c" (.num 1) true
      = (.ok (), .obj [("a", .obj [("b", .obj [("c", .num 1)])])]) ∧
    ensure_next (.obj fs) (.name n) nii true
      = .ok (freshContainer nii, .obj (setF fs n (freshContainer nii))) ∧
    ensure_next (.obj fs) (.name n) nii false = .error .notFound ∧
    ensure_next (.arr xs) (.index i) nii true
      = .ok (freshContainer nii,
          .arr ((ensure_list_length xs i).set i (freshContainer nii))) ∧
    freshContainer true = .arr [] ∧
    freshContainer false = .obj [] ∧
    peekIsIndex (.index j :: ts) = true ∧
    peekIsIndex (.name m :: ts) = false := by
  refine ⟨by rfl, by rfl, ?_, ?_, ?_, by rfl, by rfl, by rfl, by rfl⟩
  · simp [ensure_next, hmiss]
  · simp [ensure_next, hmiss]
  · simp [ensure_next, show ¬ i < xs.length by omega]

/-- Witness for C5 at concrete arguments. -/
theorem c5_witness :
    set_path false (.obj []) "a.b.c" (.num 1) false
      = (.error .notFound, .obj []) ∧
    set_path false (.obj []) "a.b.c" (.num 1) true
      = (.ok (), .obj [("a", .obj [("b", .obj [("c", .num 1)])])]) ∧
    ensure_next (.obj [("z", .num 3)]) (.name "a") true true
      = .ok (freshContainer true, .obj (setF [("z", .num 3)] "a" (freshContainer true))) ∧
    ensure_next (.obj [("z", .num 3)]) (.name "a") true false = .error .notFound ∧
    ensure_next (.arr [.num 9]) (.index 2) true true
      = .ok (freshContainer true,
          .arr ((ensure_list_length [.num 9] 2).set 2 (freshContainer true))) ∧
    freshContainer true = .arr [] ∧
    freshContainer false = .obj [] ∧
    peekIsIndex (.index 0 :: [.name "c"]) = true ∧
    peekIsIndex (.name "b" :: [.name "c"]) = false :=
  c5_create_parents [("z", .num 3)] "a" "b" true [.num 9] 2 0 [.name "c"]
    (by rfl) (by decide)

-- ---------------------------------------------------------------------------
-- Claim C6: terminal index growth
-- ---------------------------------------------------------------------------

/-- Claim C6. For a terminal `Index` segment beyond the current length,
`assign_at` with `create_parents=True` pads the array with `null`
placeholders up to the index and assigns the value there
(`set_path({xs: []}, "xs[2]", 99)` yields `{xs: [null, null, 99]}`);
with `create_parents=False` it raises the out-of-range error. -/
theorem c6_list_growth (xs : List JValue) (i : Nat) (v : JValue)
    (hrange : i ≥ xs.length) :
    set_path false (.obj [("xs", .arr [])]) "xs[2]" (.num 99) true
      = (.ok (), .obj [("xs", .arr [.null, .null, .num 99])]) ∧
    assign_at (.arr xs) (.index i) v true
      = .ok (.arr (xs ++ List.replicate (i - xs.length) .null ++ [v])) ∧
    assign_at (.arr xs) (.index i) v false = .error .outOfRange := by
  refine ⟨by rfl, ?_, ?_⟩
  · simp only [assign_at]
    rw [if_neg (by simp)]
    rw [ensure_set xs i v hrange]
  · simp [assign_at, hrange]

/-- Witness for C6 at `xs = [7]`, `i = 3`. -/
theorem c6_witness :
    set_path false (.obj [("xs", .arr [])]) "xs[2]" (.num 99) true
      = (.ok (), .obj [("xs", .arr [.null, .null, .num 99])]) ∧
    assign_at (.arr [.num 7]) (.index 3) (.num 5) true
      = .ok (.arr ([.num 7] ++ List.replicate (3 - 1) .null ++ [.num 5])) ∧
    assign_at (.arr [.num 7]) (.index 3) (.num 5) false = .error .outOfRange := by
  have h := c6_list_growth [.num 7] 3 (.num 5) (by decide)
  simpa using h

-- ---------------------------------------------------------------------------
-- Claim C10: stored null treated as missing by set_path traversal
-- ---------------------------------------------------------------------------

/-- Claim C10. `ensure_next` reads a non-final `Field` segment with
`container.get(name)` and compares against `None`, so a key whose stored
value is JSON `null` is treated exactly like a missing key: with
`create_parents=True` the stored null is overwritten by a freshly
created container, and with `create_parents=False` `set_path` raises the
missing-key error even though the key is present. -/
theorem c10_null_is_missing (fs : List (String × JValue)) (k : String)
    (nii : Bool) (hnull : lookupF fs k = some .null) :
    ensure_next (.obj fs) (.name k) nii false = .error .notFound ∧
    ensure_next (.obj fs) (.name k) nii true
      = .ok (freshContainer nii, .obj (setF fs k (freshContainer nii))) ∧
    set_path false (.obj [("a", .null)]) "a.b" (.num 7) false
      = (.error .notFound, .obj [("a", .null)]) ∧
    set_path false (.obj [("a", .null)]) "a.b" (.num 7) true
      = (.ok (), .obj [("a", .obj [("b", .num 7)])]) := by
  refine ⟨?_, ?_, by rfl, by rfl⟩
  · simp [ensure_next, hnull]
  · simp [ensure_next, hnull]

/-- Witness for C10 at `fs = [("a", null)]`, `k = "a"`. -/
theorem c10_witness :
    ensure_next (.obj [("a", .null)]) (.name "a") false false
      = .error .notFound ∧
    ensure_next (.obj [("a", .null)]) (.name "a") false true
      = .ok (freshContainer false, .obj (setF [("a", .null)] "a" (freshContainer false))) ∧
    set_path false (.obj [("a", .null)]) "a.b" (.num 7) false
      = (.error .notFound, .obj [("a", .null)]) ∧
    set_path false (.obj [("a", .null)]) "a.b" (.num 7) true
      = (.ok (), .obj [("a", .obj [("b", .num 7)])]) :=
  c10_null_is_missing [("a", .null)] "a" false (by rfl)

-- ---------------------------------------------------------------------------
-- Claim C7: delete semantics
-- ---------------------------------------------------------------------------

theorem writeBack_self (T : JValue) (t : Token) (sub : JValue)
    (h : get_token_value T t = .ok sub) : writeBack T t sub = T := by
  cases t with
  | name n =>
    cases T with
    | obj fs =>
      cases hl : lookupF fs n with
      | none => simp [get_token_value, hl] at h
      | some v =>
        simp [get_token_value, hl] at h
        subst h
        simp [writeBack, setF_self fs n v hl]
    | null => simp [get_token_value] at h
    | bool b => simp [get_token_value] at h
    | num m => simp [get_token_value] at h
    | str s => simp [get_token_value] at h
    | arr xs => simp [get_token_value] at h
  | index i =>
    cases T with
    | arr xs =>
      by_cases hi : i < xs.length
      · simp [get_token_value, hi] at h
        have hsome : xs[i]? = some sub := by
          rw [List.getElem?_eq_getElem hi, h]
        simp [writeBack, list_set_self xs i sub hsome]
      · simp [get_token_value, hi] at h
    | null => simp [get_token_value] at h
    | bool b => simp [get_token_value] at h
    | num m => simp [get_token_value] at h
    | str s => simp [get_token_value] at h
    | obj fs => simp [get_token_value] at h

theorem delGo_missing (ts : List Token) (T : JValue) (hne : ts ≠ [])
    (hmiss : delTargetMissing T ts = true) :
    delGo false T ts = (.ok (), T) ∧
    ∃ e, delGo true T ts = (.error e, T) ∧ (e = .notFound ∨ e = .outOfRange) := by
  induction ts generalizing T with
  | nil => exact absurd rfl hne
  | cons t rest ih =>
    cases rest with
    | nil =>
      cases t with
      | name n =>
        cases T with
        | obj fs =>
          have hmem : memF fs n = false := by
            simpa [delTargetMissing, walkTokens] using hmiss
          exact ⟨by simp [delGo, delete_on_parent, hmem],
            .notFound, by simp [delGo, delete_on_parent, hmem], Or.inl rfl⟩
        | null => simp [delTargetMissing, walkTokens] at hmiss
        | bool b => simp [delTargetMissing, walkTokens] at hmiss
        | num m => simp [delTargetMissing, walkTokens] at hmiss
        | str s => simp [delTargetMissing, walkTokens] at hmiss
        | arr xs => simp [delTargetMissing, walkTokens] at hmiss
      | index i =>
        cases T with
        | arr xs =>
          have hge : ¬ i < xs.length := by
            have := by simpa [delTargetMissing, walkTokens] using hmiss
            omega
          exact ⟨by simp [delGo, delete_on_parent, hge],
            .outOfRange, by simp [delGo, delete_on_parent, hge], Or.inr rfl⟩
        | null => simp [delTargetMissing, walkTokens] at hmiss
        | bool b => simp [delTargetMissing, walkTokens] at hmiss
        | num m => simp [delTargetMissing, walkTokens] at hmiss
        | str s => simp [delTargetMissing, walkTokens] at hmiss
        | obj fs => simp [delTargetMissing, walkTokens] at hmiss
    | cons t2 rest2 =>
      cases hg : get_token_value T t with
      | error e =>
        exact ⟨by simp [delGo, hg], .notFound, by simp [delGo, hg], Or.inl rfl⟩
      | ok sub =>
        have hmiss2 : delTargetMissing sub (t2 :: rest2) = true := by
          simpa [delTargetMissing, walkTokens, hg] using hmiss
        obtain ⟨h1, e, h2, h3⟩ := ih sub (by simp) hmiss2
        refine ⟨?_, e, ?_, h3⟩
        · simp [delGo, hg, h1, writeBack_self T t sub hg]
        · simp [delGo, hg, h2, writeBack_self T t sub hg]

/-- Claim C7. `del_path` on a path whose final `Field` names an existing
key removes exactly that key (`delPath({a:{b:1,c:2}}, "a.b")` yields
`{a:{c:2}}`).  For every path whose target or an intermediate is
missing, `del_path` with `raise_on_missing=False` is a silent no-op
leaving the tree unchanged, and with `raise_on_missing=True` it raises a
not-found or out-of-range error. -/
theorem c7_del_path (T : JValue) (p : String) (ts : List Token)
    (hp : parse_path_tokens p = ts) (hne : ts ≠ [])
    (hmiss : delTargetMissing T ts = true) :
    del_path false (.obj [("a", .obj [("b", .num 1), ("c", .num 2)])]) "a.b" false
      = (.ok (), .obj [("a", .obj [("c", .num 2)])]) ∧
    del_path false (.obj [("xs", .arr [.num 10, .num 20, .num 30])]) "xs[1]" false
      = (.ok (), .obj [("xs", .arr [.num 10, .num 30])]) ∧
    del_path false T p false = (.ok (), T) ∧
    (∃ e, del_path false T p true = (.error e, T) ∧
      (e = .notFound ∨ e = .outOfRange)) := by
  obtain ⟨h1, e, h2, h3⟩ := delGo_missing ts T hne hmiss
  have hie : ts.isEmpty = false := by
    cases ts with
    | nil => exact absurd rfl hne
    | cons a b => rfl
  refine ⟨by rfl, by rfl, ?_, e, ?_, h3⟩
  · simp [del_path, hp, hie, h1]
  · simp [del_path, hp, hie, h2]

/-- Witness for C7: deleting the missing key `"a.c"` of `{a:{b:1}}`. -/
theorem c7_witness :
    del_path false (.obj [("a", .obj [("b", .num 1), ("c", .num 2)])]) "a.b" false
      = (.ok (), .obj [("a", .obj [("c", .num 2)])]) ∧
    del_path false (.obj [("xs", .arr [.num 10, .num 20, .num 30])]) "xs[1]" false
      = (.ok (), .obj [("xs", .arr [.num 10, .num 30])]) ∧
    del_path false (.obj [("a", .obj [("b", .num 1)])]) "a.c" false
      = (.ok (), .obj [("a", .obj [("b", .num 1)])]) ∧
    (∃ e, del_path false (.obj [("a", .obj [("b", .num 1)])]) "a.c" true
      = (.error e, .obj [("a", .obj [("b", .num 1)])]) ∧
      (e = .notFound ∨ e = .outOfRange)) :=
  c7_del_path (.obj [("a", .obj [("b", .num 1)])]) "a.c"
    [.name "a", .name "c"] (by rfl) (by simp) (by rfl)

-- ---------------------------------------------------------------------------
-- Claim C8: default factory and autocreate
-- ---------------------------------------------------------------------------

/-- Claim C8, amended. For every attribute read, via an identifier that is
not shadowed by a mapper class attribute, of a key absent from an Object
view: with a configured `default_factory` the factory's product is
(wrapped and) returned, and it is stored into the backing container if
and only if `autocreate_missing` is true and the view is not read-only;
in particular with `autocreate_missing=false` the backing container is
unchanged and the key stays absent, so a repeated read reaches the
factory branch again.  With no factory configured the read fails with
the not-found error. -/
theorem c8_missing_attr (pol : Policy) (fs : List (String × JValue))
    (n : String) (prod : JValue)
    (hshadow : mapperShadow n = false) (hident : is_identifier n = true)
    (hmiss : lookupF fs n = none) :
    (pol.factory = none → getattrStep pol (.obj fs) n = .error .notFound) ∧
    (pol.factory = some prod →
      getattrStep pol (.obj fs) n
        = .ok (wrapG prod,
            if pol.autocreate && !pol.readonly then .obj (setF fs n prod)
            else .obj fs)) ∧
    (pol.factory = some prod → (pol.autocreate && !pol.readonly) = false →
      getattrStep pol (.obj fs) n = .ok (wrapG prod, .obj fs) ∧
      lookupF fs n = none) := by
  refine ⟨?_, ?_, ?_⟩
  · intro hf
    simp [getattrStep, hshadow, hident, hmiss, hf]
  · intro hf
    by_cases hac : (pol.autocreate && !pol.readonly) = true
    · simp [getattrStep, hshadow, hident, hmiss, hf, hac]
    · simp only [Bool.not_eq_true] at hac
      simp [getattrStep, hshadow, hident, hmiss, hf, hac]
  · intro hf hac
    refine ⟨?_, hmiss⟩
    simp [getattrStep, hshadow, hident, hmiss, hf, hac]

/-- Claim C8 counterexample. The claim quantifies over *every* attribute
read of an absent key: but reading `"get"` on an empty mapper with a
configured factory returns the bound method `get` found by Python's
attribute protocol — `__getattr__` never runs, the factory is not
invoked, its product is not returned, and (despite
`autocreate_missing=True`) nothing is stored. -/
theorem c8_counterexample :
    getattrStep ⟨false, some (.obj []), true⟩ (.obj []) "get"
      = .ok (.methodV "get", .obj []) ∧
    GVal.methodV "get" ≠ wrapG (.obj []) ∧
    lookupF [] "get" = none := by
  refine ⟨by rfl, ?_, by rfl⟩
  simp [wrapG]

/-- Witness for the amended C8 at `n = "profile"` on an empty dict. -/
theorem c8_witness :
    (Policy.factory ⟨false, some (.obj []), true⟩ = none →
      getattrStep ⟨false, some (.obj []), true⟩ (.obj []) "profile"
        = .error .notFound) ∧
    (Policy.factory ⟨false, some (.obj []), true⟩ = some (.obj []) →
      getattrStep ⟨false, some (.obj []), true⟩ (.obj []) "profile"
        = .ok (wrapG (.obj []),
            if Policy.autocreate ⟨false, some (.obj []), true⟩
                && !(Policy.readonly ⟨false, some (.obj []), true⟩) then
              .obj (setF [] "profile" (.obj []))
            else .obj [])) ∧
    (Policy.factory ⟨false, some (.obj []), true⟩ = some (.obj []) →
      (Policy.autocreate ⟨false, some (.obj []), true⟩
          && !(Policy.readonly ⟨false, some (.obj []), true⟩)) = false →
      getattrStep ⟨false, some (.obj []), true⟩ (.obj []) "profile"
        = .ok (wrapG (.obj []), .obj []) ∧
      lookupF [] "profile" = none) :=
  c8_missing_attr ⟨false, some (.obj []), true⟩ [] "profile" (.obj [])
    (by rfl) (by rfl) (by rfl)

-- ---------------------------------------------------------------------------
-- Claim C2: aliasing of wrapped values
-- ---------------------------------------------------------------------------

theorem lookupFH_setFH_self (fs : List (String × HVal)) (n : String) (v : HVal) :
    lookupFH (setFH fs n v) n = some v := by
  induction fs with
  | nil => simp [setFH, lookupFH]
  | cons kv rest ih =>
    obtain ⟨k, w⟩ := kv
    by_cases h : k = n
    · simp [setFH, h, lookupFH]
    · simp [setFH, h, lookupFH, ih]

theorem getCell_setCell_ne (h : Heap) (a b : Nat) (c : Cell) (hab : a ≠ b) :
    getCell (setCell h b c) a = getCell h a := by
  simp [getCell, setCell, List.getElem?_set_ne (fun e => hab e.symm)]

theorem getCell_setCell_self (h : Heap) (b : Nat) (c cb : Cell)
    (hb : getCell h b = some cb) :
    getCell (setCell h b c) b = some c := by
  have hlt : b < h.length := by
    by_contra hge
    rw [getCell, List.getElem?_eq_none (by omega)] at hb
    exact absurd hb (by simp)
  simpa [getCell, setCell] using List.getElem?_set_eq_of_lt c hlt

/-- Wrap of a dict reference by `wrap_value`: a view on the same address with
the same policy — no copy, no new allocation. -/
theorem wrapH_dict (h : Heap) (pol : HPolicy) (fuel : Nat) (b : Nat)
    (bd : List (String × HVal)) (hb : getCell h b = some (.dcell bd)) :
    wrapH h pol fuel (.ref b) = .view b pol := by
  simp [wrapH, wrapHList, hb]

/-- Wrap of a list reference by `wrap_value`: a *fresh* plain list of recursively
wrapped items, not a view on the stored container. -/
theorem wrapH_list (h : Heap) (pol : HPolicy) (fuel : Nat) (c : Nat)
    (items : List HVal) (hc : getCell h c = some (.lcell items)) :
    wrapH h pol fuel (.ref c) = .plist (wrapHList h pol fuel items) := by
  simp [wrapH, wrapHList, hc]

/-- Claim C2, amended. For a stored value that is an Object, the value
returned by attribute access or index access (via a name not shadowed by
a mapper class attribute) is a live view aliasing the same underlying
container — the same address — carrying the same policy; a mutation
performed through the derived view, with an attribute name that is not
one of the four name-mangled slot names (those are forwarded to
`object.__setattr__` and rebind the view's own slot instead of writing
the cell), is visible through the original view and in the plain-value
form.  For a stored value that is an Array, however, the returned value
is a *fresh* list of recursively wrapped items, not a view aliasing the
stored container (its Object elements do alias the heap, but the list
itself is a copy). -/
theorem c2_aliasing (h : Heap) (a b : Nat) (pol : HPolicy) (fuel : Nat)
    (fs bd : List (String × HVal)) (n k : String) (v : HVal)
    (ha : getCell h a = some (.dcell fs))
    (hn : lookupFH fs n = some (.ref b))
    (hb : getCell h b = some (.dcell bd))
    (hshadow : mapperShadow n = false) (hident : is_identifier n = true)
    (hro : pol.readonly = false) (hkident : is_identifier k = true)
    (hkslot : slotAttrNames.contains k = false)
    (hab : a ≠ b) :
    wrapH h pol fuel (.ref b) = .view b pol ∧
    viewGetAttr h a pol fuel n = some (.view b pol) ∧
    (∃ h2, viewSetAttr h b pol k v = .ok h2 ∧
      viewGetAttr h2 a pol fuel n = some (.view b pol) ∧
      readFieldH h2 b k = some v) ∧
    (∀ (c : Nat) (items : List HVal),
      getCell h c = some (.lcell items) →
      wrapH h pol fuel (.ref c) = .plist (wrapHList h pol fuel items)) ∧
    (∀ (c i d : Nat) (items : List HVal) (dfs : List (String × HVal)),
      getCell h c = some (.lcell items) → items[i]? = some (.ref d) →
      getCell h d = some (.dcell dfs) →
      viewGetIdx h c pol fuel i = some (.view d pol)) := by
  have hk2 : ¬ (k ∈ slotAttrNames) := by simpa using hkslot
  refine ⟨wrapH_dict h pol fuel b bd hb, ?_, ?_, ?_, ?_⟩
  · simp [viewGetAttr, hshadow, ha, hident, hn, wrapH_dict h pol fuel b bd hb]
  · refine ⟨setCell h b (.dcell (setFH bd k v)), ?_, ?_, ?_⟩
    · simp [viewSetAttr, hk2, hro, hb, hkident]
    · have hga : getCell (setCell h b (.dcell (setFH bd k v))) a
          = some (.dcell fs) := by
        rw [getCell_setCell_ne h a b _ hab, ha]
      have hgb := getCell_setCell_self h b (.dcell (setFH bd k v)) _ hb
      simp [viewGetAttr, hshadow, hga, hident, hn,
        wrapH_dict _ pol fuel b (setFH bd k v) hgb]
    · have hgb := getCell_setCell_self h b (.dcell (setFH bd k v)) _ hb
      simp [readFieldH, hgb, lookupFH_setFH_self]
  · intro c items hc
    exact wrapH_list h pol fuel c items hc
  · intro c i d items dfs hc hi hd
    simp [viewGetIdx, hc, hi, wrapH_dict h pol fuel d dfs hd]

/-- Claim C2 counterexample. On the heap for `{"xs": [1]}` (the dict cell
at address 0, the list cell at address 1), attribute access to `"xs"`
returns a *fresh plain list* of wrapped items — not a view aliasing the
stored list cell at address 1 — so the claim that every returned
Object/Array value is a live aliasing view is false: mutating the
returned list touches no heap cell, and the plain-value form still shows
the original `{"xs": [1]}`. -/
theorem c2_counterexample :
    viewGetAttr [Cell.dcell [("xs", .ref 1)], Cell.lcell [.hnum 1]] 0
        ⟨false, none, false⟩ 5 "xs"
      = some (.plist [.scalar (.hnum 1)]) ∧
    (some (PyObj.plist [.scalar (.hnum 1)])
      ≠ some (PyObj.view 1 ⟨false, none, false⟩)) ∧
    plainH [Cell.dcell [("xs", .ref 1)], Cell.lcell [.hnum 1]] 9 (.ref 0)
      = some (.obj [("xs", .arr [.num 1])]) := by
  refine ⟨by rfl, ?_, by rfl⟩
  simp

/-- Witness for the amended C2 on the heap for `{"x": {"k": 1}}`. -/
theorem c2_witness :
    wrapH [Cell.dcell [("x", .ref 1)], Cell.dcell [("k", .hnum 1)]]
        ⟨false, none, false⟩ 3 (.ref 1)
      = .view 1 ⟨false, none, false⟩ ∧
    viewGetAttr [Cell.dcell [("x", .ref 1)], Cell.dcell [("k", .hnum 1)]] 0
        ⟨false, none, false⟩ 3 "x"
      = some (.view 1 ⟨false, none, false⟩) ∧
    (∃ h2,
      viewSetAttr [Cell.dcell [("x", .ref 1)], Cell.dcell [("k", .hnum 1)]] 1
          ⟨false, none, false⟩ "k" (.hnum 99) = .ok h2 ∧
      viewGetAttr h2 0 ⟨false, none, false⟩ 3 "x"
        = some (.view 1 ⟨false, none, false⟩) ∧
      readFieldH h2 1 "k" = some (.hnum 99)) ∧
    (∀ (c : Nat) (items : List HVal),
      getCell [Cell.dcell [("x", .ref 1)], Cell.dcell [("k", .hnum 1)]] c
          = some (.lcell items) →
      wrapH [Cell.dcell [("x", .ref 1)], Cell.dcell [("k", .hnum 1)]]
          ⟨false, none, false⟩ 3 (.ref c)
        = .plist (wrapHList [Cell.dcell [("x", .ref 1)], Cell.dcell [("k", .hnum 1)]]
            ⟨false, none, false⟩ 3 items)) ∧
    (∀ (c i d : Nat) (items : List HVal) (dfs : List (String × HVal)),
      getCell [Cell.dcell [("x", .ref 1)], Cell.dcell [("k", .hnum 1)]] c
          = some (.lcell items) →
      items[i]? = some (.ref d) →
      getCell [Cell.dcell [("x", .ref 1)], Cell.dcell [("k", .hnum 1)]] d
          = some (.dcell dfs) →
      viewGetIdx [Cell.dcell [("x", .ref 1)], Cell.dcell [("k", .hnum 1)]] c
          ⟨false, none, false⟩ 3 i
        = some (.view d ⟨false, none, false⟩)) :=
  c2_aliasing [Cell.dcell [("x", .ref 1)], Cell.dcell [("k", .hnum 1)]] 0 1
    ⟨false, none, false⟩ 3 [("x", .ref 1)] [("k", .hnum 1)] "x" "k" (.hnum 99)
    (by rfl) (by rfl) (by rfl) (by rfl) (by rfl) (by rfl) (by rfl) (by rfl)
    (by decide)

-- ---------------------------------------------------------------------------
-- Claim C4: get_path error recovery
-- ---------------------------------------------------------------------------

theorem takeWhile_all (p : Char → Bool) (l : List Char) :
    (l.takeWhile p).all p = true := by
  induction l with
  | nil => rfl
  | cons c rest ih =>
    by_cases h : p c
    · simp [List.takeWhile_cons, h, ih]
    · simp [List.takeWhile_cons, h]

/-- Every token the scanner produces has a valid identifier name: the
`name` group is exactly the identifier pattern. -/
theorem tokenizeFuel_ident (fuel : Nat) :
    ∀ (l : List Char) (t : Token), t ∈ tokenizeFuel fuel l →
      tokenIdentOk t = true := by
  induction fuel with
  | zero => intro l t ht; simp [tokenizeFuel] at ht
  | succ fuel ih =>
    intro l t ht
    cases l with
    | nil => simp [tokenizeFuel] at ht
    | cons c rest =>
      rw [tokenizeFuel] at ht
      by_cases h1 : isIdentStart c
      · rw [if_pos h1] at ht
        rcases List.mem_cons.mp ht with he | hm
        · subst he
          simp only [tokenIdentOk, is_identifier]
          simp [h1, takeWhile_all isIdentCont rest]
        · exact ih _ _ hm
      · rw [if_neg h1] at ht
        by_cases h2 : c = '['
        · rw [if_pos h2] at ht
          split at ht
          · exact ih _ _ ht
          · rcases List.mem_cons.mp ht with he | hm
            · subst he; rfl
            · exact ih _ _ hm
          · exact ih _ _ ht
        · rw [if_neg h2] at ht
          exact ih _ _ ht

theorem parse_all_ident (p : String) :
    (parse_path_tokens p).all tokenIdentOk = true := by
  rw [List.all_eq_true]
  intro t ht
  exact tokenizeFuel_ident _ _ t ht

/-- When the policy cannot store anything (no factory, or autocreate
disabled), the hop loop of `get_path` never changes the value it walks:
reads are pure. -/
theorem goGet_pure (pol : Policy)
    (hp : pol.factory = none ∨ pol.autocreate = false) :
    ∀ (ts : List Token) (g : GVal), (goGet pol g ts).2 = g := by
  intro ts
  induction ts with
  | nil =>
    intro g
    cases g with
    | raw v => cases v <;> rfl
    | mapperV d => cases d <;> rfl
    | wlist items => rfl
    | methodV n => rfl
  | cons t rest ih =>
    intro g
    cases g with
    | mapperV d =>
      cases t with
      | name n =>
        by_cases hs : mapperShadow n
        · simp [goGet, hs]
        · cases d with
          | obj fs =>
            by_cases hid : is_identifier n
            · cases hl : lookupF fs n with
              | some v =>
                simp [goGet, hs, hid, hl, ih, unwrap_wrap, setF_self fs n v hl]
              | none =>
                cases hf : pol.factory with
                | none => simp [goGet, hs, hid, hl, hf]
                | some prod =>
                  have hac : pol.autocreate = false := by
                    rcases hp with h | h
                    · rw [h] at hf; exact absurd hf (by simp)
                    · exact h
                  simp [goGet, hs, hid, hl, hf, hac]
            · simp [goGet, hs, hid]
          | arr xs => simp [goGet, hs]
          | null => simp [goGet, hs]
          | bool b => simp [goGet, hs]
          | num m => simp [goGet, hs]
          | str s => simp [goGet, hs]
      | index i =>
        cases d with
        | arr xs =>
          cases hx : xs[i]? with
          | some v => simp [goGet, hx, ih, unwrap_wrap, list_set_self xs i v hx]
          | none => simp [goGet, hx]
        | obj fs => simp [goGet]
        | null => simp [goGet]
        | bool b => simp [goGet]
        | num m => simp [goGet]
        | str s => simp [goGet]
    | wlist items =>
      cases t with
      | name n => by_cases h : n ∈ listMethodNames <;> simp [goGet, h]
      | index i =>
        cases hx : items[i]? with
        | some g0 => simp [goGet, hx, ih, list_set_self items i g0 hx]
        | none => simp [goGet, hx]
    | raw v =>
      cases t with
      | name n =>
        cases v with
        | str s => by_cases h : scalarHasMethod (.str s) n <;> simp [goGet, h]
        | bool b => by_cases h : scalarHasMethod (.bool b) n <;> simp [goGet, h]
        | num m => by_cases h : scalarHasMethod (.num m) n <;> simp [goGet, h]
        | null => simp [goGet, scalarHasMethod]
        | arr xs => simp [goGet, scalarHasMethod]
        | obj fs => simp [goGet, scalarHasMethod]
      | index i =>
        cases v with
        | str s => cases hx : s.data[i]? <;> simp [goGet, hx]
        | null => simp [goGet]
        | bool b => simp [goGet]
        | num m => simp [goGet]
        | arr xs => simp [goGet]
        | obj fs => simp [goGet]
    | methodV n => cases t <;> simp [goGet]

/-- The hop loop on wrapped data, restricted to plain tokens and no
factory, computes exactly the pure raw-data walk `pyResolve` (wrapped):
in particular every hop that raises in Python makes the walk yield
`none` and vice versa. -/
theorem goGet_sim (pol : Policy) (hf : pol.factory = none) :
    ∀ (ts : List Token) (u : JValue),
      ts.all tokenIdentOk = true → ts.all tokenPlain = true →
      (goGet pol (wrapG u) ts).1 = (pyResolve u ts).map wrapG ∧
      (u.isScalar = false → ts ≠ [] →
        (goGet pol (.mapperV u) ts).1 = (pyResolve u ts).map wrapG) := by
  intro ts
  induction ts with
  | nil =>
    intro u _ _
    exact ⟨by cases u <;> simp [wrapG, goGet, pyResolve],
      fun _ h => absurd rfl h⟩
  | cons t rest ih =>
    intro u hid hpl
    rw [List.all_cons, Bool.and_eq_true] at hid hpl
    obtain ⟨hid1, hid2⟩ := hid
    obtain ⟨hpl1, hpl2⟩ := hpl
    cases t with
    | name n =>
      have hplain : plainName n = true := hpl1
      simp only [plainName, Bool.not_eq_true', Bool.or_eq_false_iff] at hplain
      obtain ⟨⟨⟨⟨-, hsh0⟩, hlm0⟩, hsm0⟩, him0⟩ := hplain
      have hsh : mapperShadow n = false := hsh0
      have hlm : n ∉ listMethodNames := by simpa using hlm0
      have hsm : n ∉ strMethodNames := by simpa using hsm0
      have him : n ∉ intMethodNames := by simpa using him0
      have hident : is_identifier n = true := hid1
      cases u with
      | obj fs =>
        have hcom :
            (goGet pol (.mapperV (.obj fs)) (.name n :: rest)).1
              = (pyResolve (.obj fs) (.name n :: rest)).map wrapG := by
          cases hl : lookupF fs n with
          | some v =>
            simp [goGet, hsh, hident, hl, pyResolve, (ih v hid2 hpl2).1]
          | none => simp [goGet, hsh, hident, hl, hf, pyResolve]
        exact ⟨hcom, fun _ _ => hcom⟩
      | arr xs =>
        refine ⟨?_, fun _ _ => ?_⟩
        · simp [wrapG, goGet, hlm, pyResolve]
        · simp [goGet, hsh, pyResolve]
      | null =>
        exact ⟨by simp [wrapG, goGet, scalarHasMethod, pyResolve],
          by intro hsc; simp [JValue.isScalar] at hsc⟩
      | bool b =>
        exact ⟨by simp [wrapG, goGet, scalarHasMethod, him, pyResolve],
          by intro hsc; simp [JValue.isScalar] at hsc⟩
      | num m =>
        exact ⟨by simp [wrapG, goGet, scalarHasMethod, him, pyResolve],
          by intro hsc; simp [JValue.isScalar] at hsc⟩
      | str s =>
        exact ⟨by simp [wrapG, goGet, scalarHasMethod, hsm, pyResolve],
          by intro hsc; simp [JValue.isScalar] at hsc⟩
    | index i =>
      cases u with
      | obj fs =>
        have hcom :
            (goGet pol (.mapperV (.obj fs)) (.index i :: rest)).1
              = (pyResolve (.obj fs) (.index i :: rest)).map wrapG := by
          simp [goGet, pyResolve]
        exact ⟨hcom, fun _ _ => hcom⟩
      | arr xs =>
        refine ⟨?_, fun _ _ => ?_⟩
        · cases hx : xs[i]? with
          | some v =>
            simp [wrapG, goGet, wrapL_getElem, hx, pyResolve,
              (ih v hid2 hpl2).1]
          | none => simp [wrapG, goGet, wrapL_getElem, hx, pyResolve]
        · cases hx : xs[i]? with
          | some v => simp [goGet, hx, pyResolve, (ih v hid2 hpl2).1]
          | none => simp [goGet, hx, pyResolve]
      | str s =>
        refine ⟨?_, ?_⟩
        · cases hx : s.data[i]? with
          | some c =>
            have := (ih (.str (String.mk [c])) hid2 hpl2).1
            simp only [wrapG] at this
            simp [wrapG, goGet, hx, pyResolve, this]
          | none => simp [wrapG, goGet, hx, pyResolve]
        · intro hsc; simp [JValue.isScalar] at hsc
      | null =>
        exact ⟨by simp [wrapG, goGet, pyResolve],
          by intro hsc; simp [JValue.isScalar] at hsc⟩
      | bool b =>
        exact ⟨by simp [wrapG, goGet, pyResolve],
          by intro hsc; simp [JValue.isScalar] at hsc⟩
      | num m =>
        exact ⟨by simp [wrapG, goGet, pyResolve],
          by intro hsc; simp [JValue.isScalar] at hsc⟩

/-- Claim C4, amended. `get_path` never raises.  On plain tokens — names
that do not begin with an underscore (excluding every dunder attribute
`getattr` can find on builtins and on the mapper) and do not collide
with the mapper's method names or a non-dunder builtin method of
`str`/`int`/`bool`/`list` — and with no factory, its hop loop computes
exactly the pure raw-data walk: which also indexes into strings,
Python's `s[i]` being a successful hop rather than a type error.  So
whenever that walk fails (wrong container kind other than string
indexing, missing key, out-of-range index) the loop yields `none`;
whenever the loop yields `none`, the caller-supplied default is
returned; and whenever the policy cannot store (no factory, or
autocreate disabled) the tree is left unchanged. -/
theorem c4_get_path_amended (pol : Policy) (T : JValue) (p : String)
    (dflt : GVal) :
    (pol.factory = none → T.isScalar = false → parse_path_tokens p ≠ [] →
      (parse_path_tokens p).all tokenPlain = true →
      (goGet pol (.mapperV T) (parse_path_tokens p)).1
        = (pyResolve T (parse_path_tokens p)).map wrapG) ∧
    ((goGet pol (.mapperV T) (parse_path_tokens p)).1 = none →
      (get_path pol T p dflt).1 = dflt) ∧
    (pol.factory = none ∨ pol.autocreate = false →
      (get_path pol T p dflt).2 = T) := by
  refine ⟨?_, ?_, ?_⟩
  · intro hf hsc hne hpl
    exact (goGet_sim pol hf (parse_path_tokens p) T (parse_all_ident p) hpl).2
      hsc hne
  · intro hnone
    simp [get_path, hnone]
  · intro hp
    simp [get_path, goGet_pure pol hp, unwrapG]

/-- Claim C4 counterexample. The claim as stated says an `Index` hop on a
non-Array (wrong container kind) makes `get_path` return the default:
but on `{"s": "ab"}` the path `"s[0]"` indexes into the *string* and
returns `"a"`, not the default — Python string indexing succeeds. -/
theorem c4_counterexample :
    (get_path ⟨false, none, false⟩ (.obj [("s", .str "ab")]) "s[0]"
        (.raw .null)).1 = .raw (.str "a") ∧
    (JValue.str "ab").isScalar = true ∧
    GVal.raw (.str "a") ≠ .raw .null := by
  refine ⟨by rfl, by rfl, ?_⟩
  simp

/-- Witness for the amended C4: `{"a": 1}` with the missing path `"b"`
returns the default and leaves the tree unchanged. -/
theorem c4_witness :
    (goGet ⟨false, none, false⟩ (.mapperV (.obj [("a", .num 1)]))
        (parse_path_tokens "b")).1
      = (pyResolve (.obj [("a", .num 1)]) (parse_path_tokens "b")).map wrapG ∧
    (get_path ⟨false, none, false⟩ (.obj [("a", .num 1)]) "b" (.raw .null)).1
      = .raw .null ∧
    (get_path ⟨false, none, false⟩ (.obj [("a", .num 1)]) "b" (.raw .null)).2
      = .obj [("a", .num 1)] :=
  ⟨(c4_get_path_amended ⟨false, none, false⟩ (.obj [("a", .num 1)]) "b"
      (.raw .null)).1 (by rfl) (by rfl) (by decide) (by rfl),
   (c4_get_path_amended ⟨false, none, false⟩ (.obj [("a", .num 1)]) "b"
      (.raw .null)).2.1 (by rfl),
   (c4_get_path_amended ⟨false, none, false⟩ (.obj [("a", .num 1)]) "b"
      (.raw .null)).2.2 (Or.inl rfl)⟩

-- ---------------------------------------------------------------------------
-- Claim C1: set_path / get_path roundtrip
-- ---------------------------------------------------------------------------

theorem ensure_next_found (fs : List (String × JValue)) (n : String)
    (nii cp : Bool) (sub : JValue) (hl : lookupF fs n = some sub)
    (hnn : sub ≠ .null) :
    ensure_next (.obj fs) (.name n) nii cp = .ok (sub, .obj fs) := by
  cases sub <;> first
    | exact absurd rfl hnn
    | simp [ensure_next, hl]

/-- The hop loop on a path that fully resolves through the raw tree
(with the container-kind discipline, identifier names, and no shadowed
names) returns the wrapped resolved value; no default, no factory. -/
theorem goGet_resolved (pol : Policy) :
    ∀ (ts : List Token) (u w : JValue),
      resolves u ts = some w → ts.all tokenIdentOk = true →
      ts.all tokenNotShadowed = true →
      (goGet pol (wrapG u) ts).1 = some (wrapG w) ∧
      (ts ≠ [] → (goGet pol (.mapperV u) ts).1 = some (wrapG w)) := by
  intro ts
  induction ts with
  | nil =>
    intro u w hres _ _
    simp only [resolves, Option.some.injEq] at hres
    subst hres
    exact ⟨by cases u <;> simp [wrapG, goGet], fun h => absurd rfl h⟩
  | cons t rest ih =>
    intro u w hres hid hsh
    rw [List.all_cons, Bool.and_eq_true] at hid hsh
    obtain ⟨hid1, hid2⟩ := hid
    obtain ⟨hsh1, hsh2⟩ := hsh
    cases t with
    | name n =>
      have hident : is_identifier n = true := hid1
      have hshn : mapperShadow n = false := by
        simpa [tokenNotShadowed] using hsh1
      cases u with
      | obj fs =>
        cases hl : lookupF fs n with
        | some v =>
          rw [resolves, hl] at hres
          have hcom : (goGet pol (.mapperV (.obj fs)) (.name n :: rest)).1
              = some (wrapG w) := by
            simp [goGet, hshn, hident, hl, (ih v w hres hid2 hsh2).1]
          exact ⟨hcom, fun _ => hcom⟩
        | none => rw [resolves, hl] at hres; exact absurd hres (by simp)
      | null => simp [resolves] at hres
      | bool b => simp [resolves] at hres
      | num m => simp [resolves] at hres
      | str s => simp [resolves] at hres
      | arr xs => simp [resolves] at hres
    | index i =>
      cases u with
      | arr xs =>
        cases hx : xs[i]? with
        | some v =>
          rw [resolves, hx] at hres
          refine ⟨?_, fun _ => ?_⟩
          · simp [wrapG, goGet, wrapL_getElem, hx, (ih v w hres hid2 hsh2).1]
          · simp [goGet, hx, (ih v w hres hid2 hsh2).1]
        | none => rw [resolves, hx] at hres; exact absurd hres (by simp)
      | null => simp [resolves] at hres
      | bool b => simp [resolves] at hres
      | num m => simp [resolves] at hres
      | str s => simp [resolves] at hres
      | obj fs => simp [resolves] at hres

/-- The token loop of `set_path` on a path that fully resolves through
the raw tree succeeds and leaves the assigned value at that path. -/
theorem setGo_resolved (v : JValue) (cp : Bool) :
    ∀ (ts : List Token) (u s : JValue),
      resolves u ts = some s → ts ≠ [] →
      (setGo v cp u ts).1 = .ok () ∧
      resolves (setGo v cp u ts).2 ts = some v := by
  intro ts
  induction ts with
  | nil => intro u s _ hne; exact absurd rfl hne
  | cons t rest ih =>
    intro u s hres _
    cases rest with
    | nil =>
      cases t with
      | name n =>
        cases u with
        | obj fs =>
          cases hl : lookupF fs n with
          | some w =>
            refine ⟨by simp [setGo, assign_at], ?_⟩
            simp [setGo, assign_at, resolves, lookupF_setF_self]
          | none => rw [resolves, hl] at hres; exact absurd hres (by simp)
        | null => simp [resolves] at hres
        | bool b => simp [resolves] at hres
        | num m => simp [resolves] at hres
        | str st => simp [resolves] at hres
        | arr xs => simp [resolves] at hres
      | index i =>
        cases u with
        | arr xs =>
          cases hx : xs[i]? with
          | some w =>
            have hlt : i < xs.length := by
              by_contra hge
              rw [List.getElem?_eq_none (by omega)] at hx
              exact absurd hx (by simp)
            have hell : ensure_list_length xs i = xs := by
              simp [ensure_list_length, show ¬ i ≥ xs.length by omega]
            refine ⟨?_, ?_⟩
            · simp [setGo, assign_at, show ¬ i ≥ xs.length by omega]
            · simp only [setGo, assign_at]
              rw [if_neg (by simp; omega)]
              simp [hell, resolves,
                List.getElem?_set_eq_of_lt v (by simpa using hlt)]
          | none => rw [resolves, hx] at hres; exact absurd hres (by simp)
        | null => simp [resolves] at hres
        | bool b => simp [resolves] at hres
        | num m => simp [resolves] at hres
        | str st => simp [resolves] at hres
        | obj fs => simp [resolves] at hres
    | cons t2 rest2 =>
      cases t with
      | name n =>
        cases u with
        | obj fs =>
          cases hl : lookupF fs n with
          | some sub =>
            rw [resolves, hl] at hres
            have hnn : sub ≠ .null := by
              intro he
              subst he
              have hres2 : resolves JValue.null (t2 :: rest2) = some s := hres
              rw [resolves_null_cons] at hres2
              exact absurd hres2 (by simp)
            have hen := ensure_next_found fs n (peekIsIndex (t2 :: rest2)) cp
              sub hl hnn
            obtain ⟨ih1, ih2⟩ := ih sub s hres (by simp)
            refine ⟨?_, ?_⟩
            · simp [setGo, hen, ih1]
            · simp [setGo, hen, writeBack, resolves, lookupF_setF_self, ih2]
          | none => rw [resolves, hl] at hres; exact absurd hres (by simp)
        | null => simp [resolves] at hres
        | bool b => simp [resolves] at hres
        | num m => simp [resolves] at hres
        | str st => simp [resolves] at hres
        | arr xs => simp [resolves] at hres
      | index i =>
        cases u with
        | arr xs =>
          cases hx : xs[i]? with
          | some sub =>
            rw [resolves, hx] at hres
            have hlt : i < xs.length := by
              by_contra hge
              rw [List.getElem?_eq_none (by omega)] at hx
              exact absurd hx (by simp)
            have hget : xs[i] = sub := by
              have := List.getElem?_eq_getElem hlt
              rw [hx] at this
              exact (Option.some.injEq _ _).mp this.symm
            have hen : ensure_next (.arr xs) (.index i)
                (peekIsIndex (t2 :: rest2)) cp = .ok (sub, .arr xs) := by
              simp [ensure_next, hlt, hget]
            obtain ⟨ih1, ih2⟩ := ih sub s hres (by simp)
            refine ⟨?_, ?_⟩
            · simp [setGo, hen, ih1]
            · simp [setGo, hen, writeBack, resolves,
                List.getElem?_set_eq_of_lt _ (by simpa using hlt), ih2]
          | none => rw [resolves, hx] at hres; exact absurd hres (by simp)
        | null => simp [resolves] at hres
        | bool b => simp [resolves] at hres
        | num m => simp [resolves] at hres
        | str st => simp [resolves] at hres
        | obj fs => simp [resolves] at hres

/-- Claim C1, amended. For every tree, every non-empty path that fully
resolves through the raw tree to an existing scalar location *via
segment names that do not collide with a mapper class attribute*, and
every scalar value `v`: `set_path(p, v)` succeeds and a subsequent
`get_path(p)` on the same mapper returns `v`. -/
theorem c1_roundtrip_amended (pol : Policy) (T : JValue) (p : String)
    (v s : JValue) (cp : Bool) (dflt : GVal)
    (hres : resolves T (parse_path_tokens p) = some s)
    (_hs : s.isScalar = true) (hv : v.isScalar = true)
    (hne : parse_path_tokens p ≠ [])
    (hshadow : (parse_path_tokens p).all tokenNotShadowed = true) :
    (set_path false T p v cp).1 = .ok () ∧
    (get_path pol (set_path false T p v cp).2 p dflt).1 = .raw v := by
  have hie : (parse_path_tokens p).isEmpty = false := by
    cases hts : parse_path_tokens p with
    | nil => exact absurd hts hne
    | cons a b => rfl
  obtain ⟨h1, h2⟩ := setGo_resolved v cp (parse_path_tokens p) T s hres hne
  have hset : set_path false T p v cp
      = ((setGo v cp T (parse_path_tokens p)).1,
          (setGo v cp T (parse_path_tokens p)).2) := by
    simp [set_path, hie]
  obtain ⟨_, hget⟩ := goGet_resolved pol (parse_path_tokens p)
    ((setGo v cp T (parse_path_tokens p)).2) v h2 (parse_all_ident p) hshadow
  refine ⟨by rw [hset]; exact h1, ?_⟩
  rw [hset]
  simp [get_path, hget hne, wrapG_scalar v hv]

/-- Claim C1 counterexample. On `{"get": 1}` the path `"get"` resolves to
an existing scalar, and `set_path("get", 5)` stores `5`; but
`get_path("get")` returns the *bound method* `get` found by Python's
attribute protocol (class attributes shadow data keys), not `5`. -/
theorem c1_counterexample :
    resolves (.obj [("get", .num 1)]) (parse_path_tokens "get")
      = some (.num 1) ∧
    (set_path false (.obj [("get", .num 1)]) "get" (.num 5) true).1
      = .ok () ∧
    (set_path false (.obj [("get", .num 1)]) "get" (.num 5) true).2
      = .obj [("get", .num 5)] ∧
    (get_path ⟨false, none, false⟩
        (set_path false (.obj [("get", .num 1)]) "get" (.num 5) true).2
        "get" (.raw .null)).1 = .methodV "get" ∧
    GVal.methodV "get" ≠ .raw (.num 5) := by
  refine ⟨by rfl, by rfl, by rfl, by rfl, ?_⟩
  simp

/-- Witness for the amended C1 on `{"a": {"b": 1}}` with path `"a.b"`. -/
theorem c1_witness :
    (set_path false (.obj [("a", .obj [("b", .num 1)])]) "a.b" (.num 42) true).1
      = .ok () ∧
    (get_path ⟨false, none, false⟩
        (set_path false (.obj [("a", .obj [("b", .num 1)])]) "a.b"
          (.num 42) true).2
        "a.b" (.raw .null)).1 = .raw (.num 42) :=
  c1_roundtrip_amended ⟨false, none, false⟩ (.obj [("a", .obj [("b", .num 1)])])
    "a.b" (.num 42) (.num 1) true (.raw .null) (by rfl) (by rfl) (by rfl)
    (by decide) (by rfl)

end Json2Obj
